import Mathlib

/-!
# Verification of the picking-list pipeline (`src/app_core/pipeline.py`)

A shallow embedding of the data-join / BOM-expansion / pagination pipeline.
Tables are lists of string cells (the Python code loads every sheet with
`dtype=str` and `fillna("")`, so every cell the pipeline sees is a string);
Python dicts are association lists; `pandas` left merge is modelled
explicitly; Python `Decimal` values are modelled as sign/coefficient/exponent
triples with exact integer arithmetic.

Modelling notes, stated once here:
* `unicodedata.normalize("NFKC", ·)` is modelled as the identity: all inputs
  in this development are ASCII, on which NFKC is the identity.
* Python `Decimal` string parsing is modelled on its numeric grammar
  (sign, digits, fraction, exponent, surrounding whitespace); the special
  literals `NaN`/`Infinity` and underscore grouping are not modelled, and
  arithmetic is exact (the default 28-digit context never rounds the small
  operands appearing here).
* `list.sort(key=...)` is Python's stable sort; it is modelled by
  `List.insertionSort`, which is stable and sorts by the same key order.
-/

/-- One row of a loaded table, as produced by `record.to_dict()`:
an association list from column name to cell text. -/
abbrev RowDict := List (String × String)

/-- Python `dict.get` / pandas `Series.get`: the value stored under `key`, if any.
Later writes win in Python dicts; the association lists built below put
later writes in front, so taking the first hit matches that. -/
def dictGet {α : Type} (d : List (String × α)) (key : String) : Option α :=
  (d.find? (fun kv => kv.1 == key)).map (·.2)

/-- Source `_clean_column`: NFKC-normalize (identity here), strip, and delete all
internal whitespace.  Stripping is subsumed by deleting every whitespace
character. -/
def _clean_column (name : String) : String :=
  String.mk (name.toList.filter (fun c => !c.isWhitespace))

/-- Source `normalize_value`: `None` becomes `""`; a string is returned unchanged
(`str` of a `str`).  The float branch of the Python function is unreachable
here because every cell is loaded as a string. -/
def normalize_value (value : Option String) : String := value.getD ""

/-- Source `coalesce`: first candidate key that is present with a non-empty value,
normalized; `""` when none is. -/
def coalesce (row : RowDict) (candidates : List String) : String :=
  match candidates with
  | [] => ""
  | key :: rest =>
    match dictGet row key with
    | some v => if v ≠ "" then normalize_value (some v) else coalesce row rest
    | none => coalesce row rest

/-- The pipeline configuration consumed by `join_and_map`:
join-key column name and the logical-field → candidate-columns mapping. -/
structure PipelineConfig where
  join_key : String
  mapping : List (String × List String)

/-- Source `resolve_field`: for each candidate column of `field`, try the cleaned
bare name, then the `_in`-suffixed and the `_mst`-suffixed variants, and
coalesce. -/
def resolve_field (config : PipelineConfig) (row : RowDict) (field : String) : String :=
  coalesce row
    (((dictGet config.mapping field).getD []).flatMap (fun base =>
      let cleaned := _clean_column base
      [cleaned, cleaned ++ "_in", cleaned ++ "_mst"]))

/-- Source `_normalize_code_value`. -/
def _normalize_code_value (value : String) : String :=
  _clean_column (normalize_value (some value))

/-! ## The quantity engine: Python `Decimal` -/

/-- A Python `Decimal`: sign, coefficient, exponent; the value is
`(-1)^neg * coeff * 10^exp`. -/
structure Dec where
  neg : Bool
  coeff : Nat
  exp : Int
deriving DecidableEq

/-- Python `Decimal.__mul__`: coefficients multiply, exponents add, signs xor. -/
def Dec.mul (a b : Dec) : Dec :=
  ⟨xor a.neg b.neg, a.coeff * b.coeff, a.exp + b.exp⟩

/-- Python `Decimal.normalize()`: strip trailing zeros from the coefficient into the
exponent; a zero becomes `0E0` (sign kept).  The trailing zeros are counted
on the decimal digit string of the coefficient. -/
def Dec.normalize (d : Dec) : Dec :=
  if d.coeff = 0 then ⟨d.neg, 0, 0⟩
  else
    let z := ((Nat.repr d.coeff).toList.reverse.takeWhile (fun c => c = '0')).length
    ⟨d.neg, d.coeff / 10 ^ z, d.exp + z⟩

/-- Python `format(d, "f")`: fixed-point rendering, no exponent. -/
def Dec.toFixedString (d : Dec) : String :=
  let digits := (Nat.repr d.coeff).toList
  let body :=
    if 0 ≤ d.exp then
      String.mk (digits ++ List.replicate d.exp.toNat '0')
    else
      let k := (-d.exp).toNat
      if digits.length > k then
        String.mk (digits.take (digits.length - k)) ++ "." ++ String.mk (digits.drop (digits.length - k))
      else
        "0." ++ String.mk (List.replicate (k - digits.length) '0') ++ String.mk digits
  (if d.neg then "-" else "") ++ body

/-- Python `text.rstrip("0").rstrip(".")`. -/
def rstripZerosDot (t : String) : String :=
  String.mk (((t.toList.reverse.dropWhile (fun c => c = '0')).dropWhile (fun c => c = '.')).reverse)

/-- Source `_format_decimal`: normalize, render fixed-point, strip trailing zeros
and a trailing point when a point is present. -/
def _format_decimal (value : Dec) : String :=
  let text := value.normalize.toFixedString
  if text.toList.contains '.' then rstripZerosDot text else text

/-- Numeric value of a list of decimal digit characters. -/
def digitsToNat (l : List Char) : Nat :=
  l.foldl (fun a c => a * 10 + (c.toNat - 48)) 0

/-- Python `Decimal(text)` on the numeric grammar: optional surrounding whitespace,
optional sign, digits with an optional fraction (at least one digit), and an
optional `e`/`E` exponent.  `none` mirrors `InvalidOperation`. -/
def parsePyDecimal (s : String) : Option Dec :=
  let cs := s.toList.dropWhile Char.isWhitespace
  let sgn : Bool × List Char :=
    match cs with
    | '+' :: rest => (false, rest)
    | '-' :: rest => (true, rest)
    | _ => (false, cs)
  let neg := sgn.1
  let intPart := sgn.2.takeWhile Char.isDigit
  let afterInt := sgn.2.dropWhile Char.isDigit
  let frac : List Char × List Char :=
    match afterInt with
    | '.' :: rest => (rest.takeWhile Char.isDigit, rest.dropWhile Char.isDigit)
    | _ => ([], afterInt)
  let fracPart := frac.1
  let afterFrac := frac.2
  if intPart.isEmpty && fracPart.isEmpty then none
  else
    let coeff := digitsToNat (intPart ++ fracPart)
    let exp : Int := -(fracPart.length : Int)
    match afterFrac with
    | [] => some ⟨neg, coeff, exp⟩
    | e :: rest =>
      if e = 'e' ∨ e = 'E' then
        let esgn : Bool × List Char :=
          match rest with
          | '+' :: r => (false, r)
          | '-' :: r => (true, r)
          | _ => (false, rest)
        let eDigits := esgn.2.takeWhile Char.isDigit
        let afterExp := esgn.2.dropWhile Char.isDigit
        if eDigits.isEmpty then none
        else if afterExp.all Char.isWhitespace then
          some ⟨neg, coeff,
            exp + (if esgn.1 then -(digitsToNat eDigits : Int) else (digitsToNat eDigits : Int))⟩
        else none
      else if (e :: rest).all Char.isWhitespace then some ⟨neg, coeff, exp⟩
      else none

/-- One match of the regex `[-+]?\d+(?:\.\d+)?` anchored at the head of the
input: the matched characters and the rest of the input. -/
def numToken (cs : List Char) : Option (List Char × List Char) :=
  let sgn : List Char × List Char :=
    match cs with
    | '+' :: r => (['+'], r)
    | '-' :: r => (['-'], r)
    | _ => ([], cs)
  let ds := sgn.2.takeWhile Char.isDigit
  if ds.isEmpty then none
  else
    let rest := sgn.2.dropWhile Char.isDigit
    match rest with
    | '.' :: r2 =>
      let fs := r2.takeWhile Char.isDigit
      if fs.isEmpty then some (sgn.1 ++ ds, rest)
      else some (sgn.1 ++ ds ++ '.' :: fs, r2.dropWhile Char.isDigit)
    | _ => some (sgn.1 ++ ds, rest)

/-- Python `re.findall(r"[-+]?\d+(?:\.\d+)?", text)`: left-to-right, non-overlapping,
leftmost-greedy matches.  The fuel is the input length; every step consumes at
least one character, so the scan never runs out of fuel. -/
def findNumTokens : Nat → List Char → List (List Char)
  | 0, _ => []
  | _, [] => []
  | fuel + 1, c :: cs =>
    match numToken (c :: cs) with
    | some (tok, rest) => tok :: findNumTokens fuel rest
    | none => findNumTokens fuel cs

/-- Source `_parse_decimal`: strip thousands separators (`replace(",", "")` with a
one-character pattern deletes every comma); direct `Decimal` parse; on
failure, the last regex-found number substring that parses. -/
def _parse_decimal (value : String) : Option Dec :=
  let raw := normalize_value (some value)
  let text := String.mk (raw.toList.filter (fun c => c ≠ ','))
  if text = "" then none
  else
    match parsePyDecimal text with
    | some d => some d
    | none =>
      (findNumTokens text.toList.length text.toList).reverse.findSome?
        (fun tok => parsePyDecimal (String.mk tok))

/-- Source `_display_quantity`. -/
def _display_quantity (value : String) : String :=
  match _parse_decimal value with
  | none => normalize_value (some value)
  | some d => _format_decimal d

/-- Source `_compute_child_quantity`. -/
def _compute_child_quantity (parent_qty base_qty : String) : String × String :=
  match _parse_decimal parent_qty, _parse_decimal base_qty with
  | some parent_dec, some base_dec =>
    (_format_decimal (parent_dec.mul base_dec),
     _format_decimal parent_dec ++ " × " ++ _format_decimal base_dec)
  | none, some base_dec => (_format_decimal base_dec, "")
  | _, none => (normalize_value (some base_qty), "")

/-! ## Tables and the pandas left merge -/

/-- A loaded table: column names and rows of cells.  `load_excel` /
`load_bom` have already cleaned the column names, filled `NaN` with `""`,
and made every cell a string. -/
structure DF where
  cols : List String
  cells : List (List String)

/-- Pandas `Series.to_dict()` for one row. -/
def rowDict (cols : List String) (row : List String) : RowDict := cols.zip row

/-- Column names of `shipment.merge(master, how="left", on=join_key,
suffixes=("_in", "_mst"))`: overlapping non-key columns get the side
suffix; the join key stays unsuffixed. -/
def mergedCols (ship mast : DF) (join_key : String) : List String :=
  ship.cols.map (fun c => if c ≠ join_key ∧ c ∈ mast.cols then c ++ "_in" else c)
    ++ (mast.cols.filter (fun c => c ≠ join_key)).map
        (fun c => if c ∈ ship.cols then c ++ "_mst" else c)

/-- The master-side cells of a merged row: the master row minus its
join-key cells. -/
def dropKeyCells (cols : List String) (join_key : String) (cells : List String) : List String :=
  ((cols.zip cells).filter (fun kv => kv.1 ≠ join_key)).map (·.2)

/-- Pandas `shipment.merge(master, how="left", left_on=join_key, right_on=join_key,
suffixes=("_in", "_mst"))` followed by `.fillna("")`, one `RowDict` per
merged row: every shipment row in order; a row with master matches is
repeated once per matching master row (in master order), an unmatched row
gets empty master-side cells. -/
def merge_left (ship mast : DF) (join_key : String) : List RowDict :=
  ship.cells.flatMap (fun srow =>
    let sval := dictGet (rowDict ship.cols srow) join_key
    let found := mast.cells.filter
      (fun mrow => dictGet (rowDict mast.cols mrow) join_key == sval)
    let cols := mergedCols ship mast join_key
    if found.isEmpty then
      [cols.zip (srow ++ List.replicate (mast.cols.filter (fun c => c ≠ join_key)).length "")]
    else
      found.map (fun mrow => cols.zip (srow ++ dropKeyCells mast.cols join_key mrow)))

/-- Source `_build_master_lookup`: index master rows by normalized join-key value;
each stored row carries every column twice, bare and `_mst`-suffixed.
Later rows overwrite earlier ones for the same key; prepending and taking
the first `dictGet` hit realizes that. -/
def _build_master_lookup (master : DF) (join_key : String) : List (String × RowDict) :=
  let cleaned_join_key := _clean_column join_key
  master.cells.foldl
    (fun lookup cells =>
      let row_dict : RowDict :=
        (master.cols.zip cells).flatMap (fun cv =>
          [(cv.1, normalize_value (some cv.2)), (cv.1 ++ "_mst", normalize_value (some cv.2))])
      let key := _normalize_code_value ((dictGet row_dict cleaned_join_key).getD "")
      if key ≠ "" then (key, row_dict) :: lookup else lookup)
    []

/-! ## The BOM lookup -/

/-- The BOM column configuration (`BomConfig` in `config.py`); the optional
columns are `None` or may be set to an empty string, both of which the code
treats as absent. -/
structure BomConfig where
  parent_key : String
  child_key : String
  child_name : String
  quantity : String
  sequence : Option String
  unit : Option String
  child_type : Option String

/-- One BOM line as stored in the lookup (the entry dict built per row). -/
structure BomEntry where
  productCode : String
  productName : String
  baseQuantity : String
  unit : String
  itemType : String
  sequence : String
deriving DecidableEq

abbrev BomLookup := List (String × List BomEntry)

/-- Python `_clean_column(col) if col else None`: an optional column name, with
Python falsiness of the empty string. -/
def optColumn (col : Option String) : Option String :=
  match col with
  | some c => if c = "" then none else some (_clean_column c)
  | none => none

/-- Python `int(raw)`: optional surrounding whitespace, optional sign, at least one
digit, nothing else.  (Underscore grouping and non-ASCII digits are not
modelled.) -/
def parsePyInt (s : String) : Option Int :=
  let cs := s.toList.dropWhile Char.isWhitespace
  let sgn : Bool × List Char :=
    match cs with
    | '+' :: r => (false, r)
    | '-' :: r => (true, r)
    | _ => (false, cs)
  let ds := sgn.2.takeWhile Char.isDigit
  let rest := sgn.2.dropWhile Char.isDigit
  if ds.isEmpty then none
  else if rest.all Char.isWhitespace then
    some (if sgn.1 then -(digitsToNat ds : Int) else (digitsToNat ds : Int))
  else none

/-- Source `_sort_key`: `(0, int(raw))` when the sequence text parses as an integer,
otherwise `(1, raw)`; `Sum.inl` plays the role of first component `0`. -/
def _sort_key (entry : BomEntry) : Int ⊕ String :=
  match parsePyInt entry.sequence with
  | some n => Sum.inl n
  | none => Sum.inr entry.sequence

/-- Order on Python sort keys `(0, int) < (1, str)`. -/
def keyLE : Int ⊕ String → Int ⊕ String → Prop
  | Sum.inl m, Sum.inl n => m ≤ n
  | Sum.inl _, Sum.inr _ => True
  | Sum.inr _, Sum.inl _ => False
  | Sum.inr s, Sum.inr t => s ≤ t

instance : DecidableRel keyLE
  | Sum.inl m, Sum.inl n => (inferInstance : Decidable (m ≤ n))
  | Sum.inl _, Sum.inr _ => isTrue trivial
  | Sum.inr _, Sum.inl _ => isFalse (fun h => h)
  | Sum.inr s, Sum.inr t => (inferInstance : Decidable (s ≤ t))

/-- The comparison `entries.sort(key=_sort_key)` sorts by. -/
def bomLE (a b : BomEntry) : Prop := keyLE (_sort_key a) (_sort_key b)

instance : DecidableRel bomLE := fun a b => (inferInstance : Decidable (keyLE (_sort_key a) (_sort_key b)))

/-- Python `defaultdict(list)` append: extend the list of an existing key, else add
the key at the end (insertion order). -/
def bomAppend : BomLookup → String → BomEntry → BomLookup
  | [], k, e => [(k, [e])]
  | (k', es) :: rest, k, e =>
    if k' = k then (k', es ++ [e]) :: rest else (k', es) :: bomAppend rest k e

/-- The grouping pass of `build_bom_lookup`: one `BomEntry` per usable row,
appended to its parent's list; rows with an empty parent or child code are
skipped. -/
def bom_group (data : DF) (config : BomConfig) : BomLookup :=
  let parent_col := _clean_column config.parent_key
  let child_code_col := _clean_column config.child_key
  let child_name_col := _clean_column config.child_name
  let quantity_col := _clean_column config.quantity
  let sequence_col := optColumn config.sequence
  let unit_col := optColumn config.unit
  let type_col := optColumn config.child_type
  data.cells.foldl
    (fun lookup cells =>
      let record := rowDict data.cols cells
      let parent_code := _normalize_code_value ((dictGet record parent_col).getD "")
      let child_code := normalize_value (some ((dictGet record child_code_col).getD ""))
      if parent_code = "" ∨ child_code = "" then lookup
      else
        bomAppend lookup parent_code
          { productCode := child_code
            productName := normalize_value (some ((dictGet record child_name_col).getD ""))
            baseQuantity := normalize_value (some ((dictGet record quantity_col).getD ""))
            unit := match unit_col with
              | some c => normalize_value (some ((dictGet record c).getD ""))
              | none => ""
            itemType := match type_col with
              | some c => normalize_value (some ((dictGet record c).getD ""))
              | none => ""
            sequence := match sequence_col with
              | some c => normalize_value (some ((dictGet record c).getD ""))
              | none => "" })
    []

/-- Source `build_bom_lookup`: group, then stably sort each parent's list by
`_sort_key`. -/
def build_bom_lookup (data : DF) (config : BomConfig) : BomLookup :=
  (bom_group data config).map (fun pe => (pe.1, List.insertionSort bomLE pe.2))

/-! ## The row expander -/

/-- One output line (`PickingRow` dataclass). -/
structure PickingRow where
  shipDate : String
  clientCode : String
  notice : String
  productCode : String
  location : String
  quantity : String
  itemType : String
  productName : String
  orderNumber : String
  no : String
  sequence : Nat
  qr_path : String := ""
  is_child : Bool := false
  parent_no : Option String := none
  child_index : Option Nat := none
  quantity_note : String := ""
  unit : String := ""
deriving DecidableEq

/-- Python `a or b` on strings. -/
def strOr (a b : String) : String := if a ≠ "" then a else b

/-- Column `master.columns[10]` cleaned, when the master table has more than ten
columns and that name is non-empty. -/
def master_location_column (master : DF) : Option String :=
  match master.cols.drop 10 with
  | [] => none
  | c :: _ => if c ≠ "" then some (_clean_column c) else none

/-- The parent `PickingRow` built from one merged row (loop body, first
half): all fields through the field resolver, the product code falling back
to the join-key cell, the location from the master location column, the
quantity displayed. -/
def parentRowOf (config : PipelineConfig) (join_key : String) (mloc : Option String)
    (data : RowDict) (parent_index seq : Nat) : PickingRow :=
  let product_code :=
    strOr (resolve_field config data "productCode") (normalize_value (dictGet data join_key))
  let parent_quantity := _display_quantity (resolve_field config data "quantity")
  let parent_location :=
    match mloc with
    | some col => strOr ((dictGet data col).getD "") ((dictGet data (col ++ "_mst")).getD "")
    | none => ""
  { shipDate := resolve_field config data "shipDate"
    clientCode := resolve_field config data "clientCode"
    notice := resolve_field config data "notice"
    productCode := product_code
    location := parent_location
    quantity := parent_quantity
    itemType := resolve_field config data "itemType"
    productName := resolve_field config data "productName"
    orderNumber := resolve_field config data "orderNumber"
    no := Nat.repr parent_index
    sequence := seq }

/-- The child `PickingRow` built from one BOM entry (loop body, second
half). -/
def childRowOf (config : PipelineConfig) (master_lookup : List (String × RowDict))
    (mloc : Option String) (parent_row : PickingRow) (parent_quantity : String)
    (parent_index child_idx seq : Nat) (child : BomEntry) : PickingRow :=
  let child_code_raw := normalize_value (some child.productCode)
  let child_code_key := _normalize_code_value child_code_raw
  let child_master := (dictGet master_lookup child_code_key).getD []
  let child_product_name :=
    strOr child.productName (strOr (resolve_field config child_master "productName") child_code_raw)
  let child_item_type :=
    strOr child.itemType (strOr (resolve_field config child_master "itemType") parent_row.itemType)
  let child_location :=
    match mloc with
    | some col =>
      strOr ((dictGet child_master col).getD "") ((dictGet child_master (col ++ "_mst")).getD "")
    | none => ""
  let child_notice := strOr (resolve_field config child_master "notice") parent_row.notice
  let rn := _compute_child_quantity parent_quantity child.baseQuantity
  { shipDate := parent_row.shipDate
    clientCode := parent_row.clientCode
    notice := child_notice
    productCode := child_code_raw
    location := child_location
    quantity := _display_quantity rn.1
    itemType := child_item_type
    productName := child_product_name
    orderNumber := parent_row.orderNumber
    no := Nat.repr parent_index ++ "-" ++ Nat.repr child_idx
    sequence := seq
    qr_path := ""
    is_child := true
    parent_no := some parent_row.no
    child_index := some child_idx
    quantity_note := rn.2
    unit := child.unit }

/-- The inner `for child_idx, child in enumerate(children, start=1)` loop:
child index and sequence counter advance by one per child. -/
def childrenRows (config : PipelineConfig) (master_lookup : List (String × RowDict))
    (mloc : Option String) (parent_row : PickingRow) (parent_quantity : String)
    (parent_index : Nat) : Nat → Nat → List BomEntry → List PickingRow
  | _, _, [] => []
  | child_idx, seq, e :: es =>
    childRowOf config master_lookup mloc parent_row parent_quantity parent_index child_idx seq e
      :: childrenRows config master_lookup mloc parent_row parent_quantity parent_index
          (child_idx + 1) (seq + 1) es

/-- The outer `for _, record in merged.fillna("").iterrows()` loop: per
merged row, one parent then its BOM children; the parent counter advances by
one per merged row, the sequence counter by one per emitted row. -/
def expandRows (config : PipelineConfig) (join_key : String)
    (master_lookup : List (String × RowDict)) (mloc : Option String)
    (lookup : BomLookup) : Nat → Nat → List RowDict → List PickingRow
  | _, _, [] => []
  | parent_index, seq, data :: rest =>
    let parent_row := parentRowOf config join_key mloc data parent_index seq
    let children := (dictGet lookup (_normalize_code_value parent_row.productCode)).getD []
    parent_row
      :: (childrenRows config master_lookup mloc parent_row parent_row.quantity parent_index
            1 (seq + 1) children
          ++ expandRows config join_key master_lookup mloc lookup
              (parent_index + 1) (seq + 1 + children.length) rest)

/-- Source `join_and_map`: clean the join key, build the master lookup, left-merge
shipment with master, and expand every merged row with both counters
starting at 1.  `bom_lookup or {}` maps `None` to the empty lookup. -/
def join_and_map (shipment master : DF) (config : PipelineConfig)
    (bom_lookup : Option BomLookup) : List PickingRow :=
  let join_key := _clean_column config.join_key
  expandRows config join_key (_build_master_lookup master join_key)
    (master_location_column master) (bom_lookup.getD []) 1 1
    (merge_left shipment master join_key)

/-- Source `paginate`: `rows[idx : idx + per_page]` for
`idx in range(0, len(rows), per_page)`; `range` has
`ceil(len(rows) / per_page)` elements stepping by `per_page`. -/
def paginate (rows : List PickingRow) (per_page : Nat) : List (List PickingRow) :=
  (List.range' 0 ((rows.length + per_page - 1) / per_page) per_page).map
    (fun idx => (rows.drop idx).take per_page)

/-! ## Specification-level definitions

These two definitions follow the specification's words rather than the
source, for comparison with the source-translated definitions above. -/

/-- Spec wording for the resolver's candidate order: for each candidate
column of the field's priority list, the bare normalized name, then the
left-source-suffixed variant, then the right-source-suffixed variant. -/
def resolveCandidates (config : PipelineConfig) (field : String) : List String :=
  ((dictGet config.mapping field).getD []).flatMap (fun base =>
    [_clean_column base, _clean_column base ++ "_in", _clean_column base ++ "_mst"])

/-- Spec wording for "the first value that is neither absent nor empty,
normalized to a string". -/
def firstNonEmptyValue (row : RowDict) (keys : List String) : Option String :=
  keys.findSome? (fun k =>
    match dictGet row k with
    | some v => if v = "" then none else some (normalize_value (some v))
    | none => none)

/-- Spec wording for the BOM ordering policy: entries with integer-parseable
sequences first, ascending by numeric value; non-numeric sequences after all
numeric ones, ordered by raw sequence string. -/
def bomSpecLE (a b : BomEntry) : Prop :=
  match parsePyInt a.sequence, parsePyInt b.sequence with
  | some m, some n => m ≤ n
  | some _, none => True
  | none, some _ => False
  | none, none => a.sequence ≤ b.sequence

/-! ## Concrete inputs used by witnesses and counterexamples -/

/-- A configuration with an empty field mapping. -/
def cfgEmpty : PipelineConfig := { join_key := "K", mapping := [] }

/-- One shipment row with join-key value `"k"`. -/
def shipOne : DF := { cols := ["K"], cells := [["k"]] }

/-- A master table whose join-key column holds the duplicate values
`"k", "k"`. -/
def mastDup : DF := { cols := ["K", "V"], cells := [["k", "1"], ["k", "2"]] }

/-- A master table with a single row keyed `"k"`. -/
def mastOne : DF := { cols := ["K", "V"], cells := [["k", "1"]] }

/-- A BOM lookup giving parent `"k"` two children. -/
def lkTwo : BomLookup :=
  [("k",
    [{ productCode := "C1", productName := "n1", baseQuantity := "3",
       unit := "", itemType := "", sequence := "10" },
     { productCode := "C2", productName := "n2", baseQuantity := "0.5",
       unit := "", itemType := "", sequence := "20" }])]

/-- A BOM lookup whose single entry has an empty product name. -/
def lkNoName : BomLookup :=
  [("P1",
    [{ productCode := "C9", productName := "", baseQuantity := "",
       unit := "", itemType := "", sequence := "" }])]

/-- One shipment row with join-key value `"P1"`. -/
def shipP1 : DF := { cols := ["K"], cells := [["P1"]] }

/-- An empty master table with only the join-key column. -/
def mastEmpty : DF := { cols := ["K"], cells := [] }

/-- A configuration mapping the logical field `location` to column `LOC`. -/
def cfgLoc : PipelineConfig := { join_key := "K", mapping := [("location", ["LOC"])] }

/-- One shipment row carrying a non-empty `LOC` cell. -/
def shipLoc : DF := { cols := ["K", "LOC"], cells := [["k1", "A1"]] }

/-- A BOM table whose rows for parent `"p"` carry the sequence values
`"20", "10", "x"` in source order. -/
def bomSeqData : DF :=
  { cols := ["P", "S", "C", "N", "Q"]
    cells := [["p", "20", "c1", "n1", "1"], ["p", "10", "c2", "n2", "1"],
              ["p", "x", "c3", "n3", "1"]] }

/-- The BOM configuration naming the columns of `bomSeqData`. -/
def bomSeqConfig : BomConfig :=
  { parent_key := "P", child_key := "C", child_name := "N", quantity := "Q"
    sequence := some "S", unit := none, child_type := none }

/-- An arbitrary concrete output row, used to exercise `paginate`. -/
def sampleRow : PickingRow :=
  { shipDate := "2025-10-01", clientCode := "CUST", notice := "", productCode := "A"
    location := "", quantity := "1", itemType := "", productName := "sample"
    orderNumber := "", no := "1", sequence := 1 }

/-- The entries of `bomSeqData` for parent `"p"`, in sorted order. -/
def bomSortedEntries : List BomEntry :=
  [{ productCode := "c2", productName := "n2", baseQuantity := "1",
     unit := "", itemType := "", sequence := "10" },
   { productCode := "c1", productName := "n1", baseQuantity := "1",
     unit := "", itemType := "", sequence := "20" },
   { productCode := "c3", productName := "n3", baseQuantity := "1",
     unit := "", itemType := "", sequence := "x" }]

/-! ## Theorems -/

/-- Lemma: `coalesce` returns the first present non-empty candidate value,
`""` when there is none. -/
theorem coalesce_eq_firstNonEmptyValue (row : RowDict) (candidates : List String) :
    coalesce row candidates = (firstNonEmptyValue row candidates).getD "" := by
  induction candidates with
  | nil => rfl
  | cons k rest ih =>
    unfold coalesce firstNonEmptyValue
    rw [List.findSome?_cons]
    cases h : dictGet row k with
    | none => simpa [h, firstNonEmptyValue] using ih
    | some v =>
      by_cases hv : v = ""
      · simpa [h, hv, firstNonEmptyValue] using ih
      · simp [h, hv, normalize_value]

/-- C9: `resolve_field` tries, for each candidate column of the field's
priority list, the bare cleaned name, then the `_in`- and `_mst`-suffixed
variants, and returns the first present non-empty value (normalized),
or `""` when no candidate yields a value.  Purity is inherent: it is a
function of its arguments. -/
theorem C9_resolve_field_priority_search (config : PipelineConfig) (row : RowDict)
    (field : String) :
    resolve_field config row field
      = (firstNonEmptyValue row (resolveCandidates config field)).getD "" :=
  coalesce_eq_firstNonEmptyValue row _

/-- C3: `_compute_child_quantity` multiplies and formats when both
quantities parse, formats the base alone when only it parses, passes the
base text through otherwise; in particular on `("2", "3")` and
`("abc", "0.5")`. -/
theorem C3_compute_child_quantity (p b : String) :
    (∀ dp db, _parse_decimal p = some dp → _parse_decimal b = some db →
      _compute_child_quantity p b
        = (_format_decimal (dp.mul db),
           _format_decimal dp ++ " × " ++ _format_decimal db))
    ∧ (∀ db, _parse_decimal p = none → _parse_decimal b = some db →
      _compute_child_quantity p b = (_format_decimal db, ""))
    ∧ (_parse_decimal b = none →
      _compute_child_quantity p b = (normalize_value (some b), ""))
    ∧ _compute_child_quantity "2" "3" = ("6", "2 × 3")
    ∧ _compute_child_quantity "abc" "0.5" = ("0.5", "") := by
  refine ⟨fun dp db h1 h2 => ?_, fun db h1 h2 => ?_, fun h2 => ?_, by decide, by decide⟩
  · unfold _compute_child_quantity; rw [h1, h2]
  · unfold _compute_child_quantity; rw [h1, h2]
  · unfold _compute_child_quantity
    rw [h2]
    cases _parse_decimal p <;> rfl

/-- Witness for C3: instantiated at the parseable pair `("2", "0.5")`. -/
theorem C3_compute_child_quantity_witness :
    _compute_child_quantity "2" "0.5"
      = (_format_decimal (Dec.mul ⟨false, 2, 0⟩ ⟨false, 5, -1⟩),
         _format_decimal (⟨false, 2, 0⟩ : Dec) ++ " × " ++ _format_decimal (⟨false, 5, -1⟩ : Dec)) :=
  (C3_compute_child_quantity "2" "0.5").1 ⟨false, 2, 0⟩ ⟨false, 5, -1⟩ (by decide) (by decide)

/-- C6: `_display_quantity` formats the parsed decimal when the text parses
(comma stripping and last-number fallback included in `_parse_decimal`),
and returns the normalized raw text unchanged otherwise; it is total, hence
never raises.  In particular on `"1,234.50"` and `"n/a"`. -/
theorem C6_display_quantity (raw : String) :
    (∀ d, _parse_decimal raw = some d → _display_quantity raw = _format_decimal d)
    ∧ (_parse_decimal raw = none → _display_quantity raw = normalize_value (some raw))
    ∧ _display_quantity "1,234.50" = "1234.5"
    ∧ _display_quantity "n/a" = "n/a" := by
  refine ⟨fun d h => ?_, fun h => ?_, by decide, by decide⟩
  · unfold _display_quantity; rw [h]
  · unfold _display_quantity; rw [h]

/-- Witness for C6: instantiated at `"1,234.50"`, which parses, and at
`"n/a"`, which does not. -/
theorem C6_display_quantity_witness :
    _display_quantity "1,234.50" = _format_decimal ⟨false, 123450, -2⟩
    ∧ _display_quantity "n/a" = normalize_value (some "n/a") :=
  ⟨(C6_display_quantity "1,234.50").1 ⟨false, 123450, -2⟩ (by decide),
   (C6_display_quantity "n/a").2.1 (by decide)⟩

theorem paginate_nil (k : Nat) : paginate [] k = [] := by
  unfold paginate
  have h : (List.length ([] : List PickingRow) + k - 1) / k = 0 := by
    simp only [List.length_nil, Nat.zero_add]
    cases k with
    | zero => rfl
    | succ k => exact Nat.div_eq_of_lt (by omega)
  rw [h]
  rfl

theorem map_slice_shift (rows : List PickingRow) (k : Nat) :
    ∀ m s, (List.range' (k + s) m k).map (fun idx => (rows.drop idx).take k)
      = (List.range' s m k).map (fun idx => ((rows.drop k).drop idx).take k) := by
  intro m
  induction m with
  | zero => intro s; rfl
  | succ m ih =>
    intro s
    rw [List.range'_succ, List.range'_succ, List.map_cons, List.map_cons]
    refine congrArg₂ _ ?_ ?_
    · rw [List.drop_drop]
    · have := ih (s + k)
      rw [show k + s + k = k + (s + k) by omega]
      exact this

theorem paginate_cons (rows : List PickingRow) (k : Nat) (hk : 1 ≤ k) (h : rows ≠ []) :
    paginate rows k = rows.take k :: paginate (rows.drop k) k := by
  unfold paginate
  have hlen : 1 ≤ rows.length := List.length_pos.mpr h
  have hn : (rows.length + k - 1) / k = ((rows.drop k).length + k - 1) / k + 1 := by
    rw [List.length_drop]
    rcases le_or_lt rows.length k with hle | hlt
    · have h1 : rows.length + k - 1 = (rows.length - 1) + k := by omega
      have h2 : rows.length - k = 0 := by omega
      rw [h1, Nat.add_div_right _ (by omega), h2, Nat.div_eq_of_lt (by omega),
        Nat.div_eq_of_lt (by omega)]
    · have h1 : rows.length + k - 1 = (rows.length - k + k - 1) + k := by omega
      rw [h1, Nat.add_div_right _ (by omega)]
  rw [hn, List.range'_succ, List.map_cons, List.drop_zero]
  congr 1
  have := map_slice_shift rows k (((rows.drop k).length + k - 1) / k) 0
  simpa using this

theorem paginate_eq_nil_iff (rows : List PickingRow) (k : Nat) (hk : 1 ≤ k) :
    paginate rows k = [] ↔ rows = [] := by
  constructor
  · intro h
    by_contra hne
    rw [paginate_cons rows k hk hne] at h
    exact List.cons_ne_nil _ _ h
  · intro h
    subst h
    exact paginate_nil k

theorem paginate_flatten_aux (k : Nat) (hk : 1 ≤ k) :
    ∀ (n : Nat) (rows : List PickingRow), rows.length ≤ n →
      (paginate rows k).flatten = rows := by
  intro n
  induction n with
  | zero =>
    intro rows hr
    have : rows = [] := List.length_eq_zero.mp (by omega)
    subst this
    rw [paginate_nil]
    rfl
  | succ n ih =>
    intro rows hr
    by_cases h : rows = []
    · subst h; rw [paginate_nil]; rfl
    · rw [paginate_cons rows k hk h, List.flatten_cons]
      have hlen : 1 ≤ rows.length := List.length_pos.mpr h
      have hlt : (rows.drop k).length ≤ n := by
        rw [List.length_drop]; omega
      rw [ih (rows.drop k) hlt, List.take_append_drop]

theorem paginate_flatten (k : Nat) (hk : 1 ≤ k) (rows : List PickingRow) :
    (paginate rows k).flatten = rows :=
  paginate_flatten_aux k hk rows.length rows le_rfl

theorem paginate_middle_length_aux (k : Nat) (hk : 1 ≤ k) :
    ∀ (n : Nat) (rows : List PickingRow), rows.length ≤ n →
      ∀ p ∈ (paginate rows k).dropLast, p.length = k := by
  intro n
  induction n with
  | zero =>
    intro rows hr p hp
    have : rows = [] := List.length_eq_zero.mp (by omega)
    subst this
    rw [paginate_nil] at hp
    simp at hp
  | succ n ih =>
    intro rows hr p hp
    by_cases h0 : rows = []
    · subst h0; rw [paginate_nil] at hp; simp at hp
    · have hlen : 1 ≤ rows.length := List.length_pos.mpr h0
      have hlt : (rows.drop k).length ≤ n := by
        rw [List.length_drop]; omega
      rw [paginate_cons rows k hk h0] at hp
      cases hrest : paginate (rows.drop k) k with
      | nil =>
        rw [hrest] at hp
        simp at hp
      | cons b t =>
        rw [hrest, List.dropLast_cons₂] at hp
        rcases List.mem_cons.mp hp with hptk | hpt
        · subst hptk
          rw [List.length_take]
          have hdne : rows.drop k ≠ [] := by
            intro hc
            rw [(paginate_eq_nil_iff _ k hk).mpr hc] at hrest
            exact List.cons_ne_nil b t hrest.symm
          have : k < rows.length := by
            by_contra hc
            exact hdne (List.drop_eq_nil_of_le (by omega))
          omega
        · exact ih (rows.drop k) hlt p (by rw [hrest]; exact hpt)

theorem paginate_last_length_aux (k : Nat) (hk : 1 ≤ k) :
    ∀ (n : Nat) (rows : List PickingRow), rows.length ≤ n →
      ∀ p, (paginate rows k).getLast? = some p → 1 ≤ p.length ∧ p.length ≤ k := by
  intro n
  induction n with
  | zero =>
    intro rows hr p hp
    have : rows = [] := List.length_eq_zero.mp (by omega)
    subst this
    rw [paginate_nil] at hp
    simp at hp
  | succ n ih =>
    intro rows hr p hp
    by_cases h0 : rows = []
    · subst h0; rw [paginate_nil] at hp; simp at hp
    · have hlen : 1 ≤ rows.length := List.length_pos.mpr h0
      have hlt : (rows.drop k).length ≤ n := by
        rw [List.length_drop]; omega
      rw [paginate_cons rows k hk h0] at hp
      cases hrest : paginate (rows.drop k) k with
      | nil =>
        rw [hrest] at hp
        simp only [List.getLast?_singleton, Option.some.injEq] at hp
        subst hp
        rw [List.length_take]
        have hdrop : rows.drop k = [] := (paginate_eq_nil_iff _ k hk).mp hrest
        have : rows.length ≤ k := by
          by_contra hc
          have := List.drop_eq_nil_iff.mp hdrop
          omega
        constructor <;> omega
      | cons b t =>
        rw [hrest, List.getLast?_cons_cons] at hp
        exact ih (rows.drop k) hlt p (by rw [hrest]; exact hp)

theorem keyLE_refl (a : Int ⊕ String) : keyLE a a := by
  rcases a with m | s
  · exact le_refl m
  · exact le_refl s

theorem keyLE_total (a b : Int ⊕ String) : keyLE a b ∨ keyLE b a := by
  rcases a with m | s <;> rcases b with n | t
  · exact Int.le_total m n
  · exact Or.inl trivial
  · exact Or.inr trivial
  · exact le_total s t

theorem keyLE_trans {a b c : Int ⊕ String} (h1 : keyLE a b) (h2 : keyLE b c) : keyLE a c := by
  rcases a with m | s <;> rcases b with n | t <;> rcases c with o | u <;>
    first
      | exact trivial
      | exact absurd h1 (fun h => h)
      | exact absurd h2 (fun h => h)
      | exact le_trans h1 h2

instance : IsTotal BomEntry bomLE := ⟨fun a b => keyLE_total (_sort_key a) (_sort_key b)⟩

instance : IsTrans BomEntry bomLE := ⟨fun _ _ _ h1 h2 => keyLE_trans h1 h2⟩

theorem bomSpecLE_iff_bomLE (a b : BomEntry) : bomSpecLE a b ↔ bomLE a b := by
  unfold bomSpecLE bomLE _sort_key
  cases parsePyInt a.sequence <;> cases parsePyInt b.sequence <;> exact Iff.rfl

theorem bomLE_of_sort_key_eq {a b : BomEntry} (h : _sort_key a = _sort_key b) : bomLE a b := by
  unfold bomLE
  rw [h]
  exact keyLE_refl _

theorem bom_sort_stable (raw : List BomEntry) (key : Int ⊕ String) :
    (List.insertionSort bomLE raw).filter (fun e => decide (_sort_key e = key))
      = raw.filter (fun e => decide (_sort_key e = key)) := by
  set P : BomEntry → Bool := fun e => decide (_sort_key e = key) with hP
  have hmemP : ∀ x ∈ raw.filter P, _sort_key x = key := by
    intro x hx
    have := List.of_mem_filter hx
    simpa [hP] using this
  have hpair : (raw.filter P).Pairwise bomLE := by
    apply List.pairwise_of_forall_mem_list
    intro a ha b hb
    exact bomLE_of_sort_key_eq ((hmemP a ha).trans (hmemP b hb).symm)
  have hsub : List.Sublist (raw.filter P) (List.insertionSort bomLE raw) :=
    List.sublist_insertionSort hpair (List.filter_sublist raw)
  have hsub2 : List.Sublist (raw.filter P) ((List.insertionSort bomLE raw).filter P) := by
    have := hsub.filter P
    rwa [List.filter_filter, show (fun a => P a && P a) = P from funext (fun a => by cases P a <;> rfl)] at this
  have hperm : ((List.insertionSort bomLE raw).filter P).Perm (raw.filter P) :=
    (List.perm_insertionSort bomLE raw).filter P
  exact (hsub2.eq_of_length hperm.length_eq.symm).symm

theorem build_bom_lookup_sorted (data : DF) (config : BomConfig) (p : String)
    (es : List BomEntry) (hmem : (p, es) ∈ build_bom_lookup data config) :
    ∃ raw, (p, raw) ∈ bom_group data config
      ∧ es.Pairwise bomSpecLE
      ∧ es.Perm raw
      ∧ ∀ key, es.filter (fun e => decide (_sort_key e = key))
          = raw.filter (fun e => decide (_sort_key e = key)) := by
  unfold build_bom_lookup at hmem
  obtain ⟨⟨p', raw⟩, hpe, heq⟩ := List.mem_map.mp hmem
  obtain ⟨hp, hes⟩ := Prod.mk.injEq .. ▸ heq
  subst hp
  refine ⟨raw, hpe, ?_, ?_, ?_⟩
  · rw [← hes]
    exact (List.sorted_insertionSort bomLE raw).imp (fun h => (bomSpecLE_iff_bomLE _ _).mpr h)
  · rw [← hes]
    exact List.perm_insertionSort bomLE raw
  · intro key
    rw [← hes]
    exact bom_sort_stable raw key

/-- C4: `paginate` with page size at least 1 splits the row list into
consecutive order-preserving pages: concatenating the pages gives back the
rows, every page except the last has exactly `k` rows, the last page has
between 1 and `k` rows, and no rows give no pages. -/
theorem C4_paginate (rows : List PickingRow) (k : Nat) (hk : 1 ≤ k) :
    (paginate rows k).flatten = rows
    ∧ (∀ p ∈ (paginate rows k).dropLast, p.length = k)
    ∧ (∀ p, (paginate rows k).getLast? = some p → 1 ≤ p.length ∧ p.length ≤ k)
    ∧ (rows = [] → paginate rows k = []) :=
  ⟨paginate_flatten k hk rows,
   paginate_middle_length_aux k hk rows.length rows le_rfl,
   paginate_last_length_aux k hk rows.length rows le_rfl,
   fun h => h ▸ paginate_nil k⟩

/-- Witness for C4: seven rows at page size six form pages of sizes 6, 1
whose concatenation is the original list. -/
theorem C4_paginate_witness :
    (paginate (List.replicate 7 sampleRow) 6).flatten = List.replicate 7 sampleRow
    ∧ (paginate (List.replicate 7 sampleRow) 6).map List.length = [6, 1] :=
  ⟨(C4_paginate (List.replicate 7 sampleRow) 6 (by decide)).1, by decide⟩

/-- C5: each list of `build_bom_lookup` is a permutation of the grouped
source-order entries of its parent, ordered by the policy of `bomSpecLE`
(numeric sequences first ascending, then non-numeric by raw string), with
ties kept in insertion order (the filter by any single sort key is
unchanged); and the example sequence values `["20", "10", "x"]` order to
`["10", "20", "x"]`. -/
theorem C5_bom_lookup_sorted :
    (∀ (data : DF) (config : BomConfig) (p : String) (es : List BomEntry),
      (p, es) ∈ build_bom_lookup data config →
      ∃ raw, (p, raw) ∈ bom_group data config
        ∧ es.Pairwise bomSpecLE
        ∧ es.Perm raw
        ∧ ∀ key, es.filter (fun e => decide (_sort_key e = key))
            = raw.filter (fun e => decide (_sort_key e = key)))
    ∧ (build_bom_lookup bomSeqData bomSeqConfig).map (fun pe => (pe.1, pe.2.map (·.sequence)))
        = [("p", ["10", "20", "x"])] :=
  ⟨build_bom_lookup_sorted, by decide⟩

/-- Witness for C5: the concrete lookup built from `bomSeqData` contains the
sorted entry list, which is ordered by the sort policy. -/
theorem C5_bom_lookup_sorted_witness :
    ("p", bomSortedEntries) ∈ build_bom_lookup bomSeqData bomSeqConfig
    ∧ bomSortedEntries.Pairwise bomSpecLE := by
  obtain ⟨raw, _, hpair, _, _⟩ :=
    C5_bom_lookup_sorted.1 bomSeqData bomSeqConfig "p" bomSortedEntries (by decide)
  exact ⟨by decide, hpair⟩

theorem parentRowOf_is_child (config : PipelineConfig) (jk : String) (mloc : Option String)
    (d : RowDict) (p s : Nat) : (parentRowOf config jk mloc d p s).is_child = false := rfl

theorem parentRowOf_no (config : PipelineConfig) (jk : String) (mloc : Option String)
    (d : RowDict) (p s : Nat) : (parentRowOf config jk mloc d p s).no = Nat.repr p := rfl

theorem parentRowOf_sequence (config : PipelineConfig) (jk : String) (mloc : Option String)
    (d : RowDict) (p s : Nat) : (parentRowOf config jk mloc d p s).sequence = s := rfl

theorem childRowOf_is_child (config : PipelineConfig) (mlk : List (String × RowDict))
    (mloc : Option String) (pr : PickingRow) (pq : String) (pi ci s : Nat) (e : BomEntry) :
    (childRowOf config mlk mloc pr pq pi ci s e).is_child = true := rfl

theorem childRowOf_parent_no (config : PipelineConfig) (mlk : List (String × RowDict))
    (mloc : Option String) (pr : PickingRow) (pq : String) (pi ci s : Nat) (e : BomEntry) :
    (childRowOf config mlk mloc pr pq pi ci s e).parent_no = some pr.no := rfl

theorem childRowOf_child_index (config : PipelineConfig) (mlk : List (String × RowDict))
    (mloc : Option String) (pr : PickingRow) (pq : String) (pi ci s : Nat) (e : BomEntry) :
    (childRowOf config mlk mloc pr pq pi ci s e).child_index = some ci := rfl

theorem childRowOf_no (config : PipelineConfig) (mlk : List (String × RowDict))
    (mloc : Option String) (pr : PickingRow) (pq : String) (pi ci s : Nat) (e : BomEntry) :
    (childRowOf config mlk mloc pr pq pi ci s e).no = Nat.repr pi ++ "-" ++ Nat.repr ci := rfl

theorem childRowOf_sequence (config : PipelineConfig) (mlk : List (String × RowDict))
    (mloc : Option String) (pr : PickingRow) (pq : String) (pi ci s : Nat) (e : BomEntry) :
    (childRowOf config mlk mloc pr pq pi ci s e).sequence = s := rfl

theorem childRowOf_productCode (config : PipelineConfig) (mlk : List (String × RowDict))
    (mloc : Option String) (pr : PickingRow) (pq : String) (pi ci s : Nat) (e : BomEntry) :
    (childRowOf config mlk mloc pr pq pi ci s e).productCode = e.productCode := rfl

theorem childrenRows_length (config : PipelineConfig) (mlk : List (String × RowDict))
    (mloc : Option String) (pr : PickingRow) (pq : String) (pi : Nat) :
    ∀ (es : List BomEntry) (c s : Nat),
      (childrenRows config mlk mloc pr pq pi c s es).length = es.length := by
  intro es
  induction es with
  | nil => intro c s; rfl
  | cons e t ih =>
    intro c s
    simp only [childrenRows, List.length_cons, ih]

theorem childrenRows_getElem (config : PipelineConfig) (mlk : List (String × RowDict))
    (mloc : Option String) (pr : PickingRow) (pq : String) (pi : Nat) :
    ∀ (es : List BomEntry) (c s i : Nat) (h : i < es.length)
      (h2 : i < (childrenRows config mlk mloc pr pq pi c s es).length),
      (childrenRows config mlk mloc pr pq pi c s es)[i]
        = childRowOf config mlk mloc pr pq pi (c + i) (s + i) es[i] := by
  intro es
  induction es with
  | nil => intro c s i h h2; simp at h
  | cons e t ih =>
    intro c s i h h2
    cases i with
    | zero => simp [childrenRows]
    | succ i =>
      have h' : i < t.length := by simpa using h
      have h2' : i < (childrenRows config mlk mloc pr pq pi (c + 1) (s + 1) t).length := by
        rw [childrenRows_length]
        exact h'
      have := ih (c + 1) (s + 1) i h' h2'
      simp only [childrenRows, List.getElem_cons_succ]
      rw [this]
      congr 1 <;> omega

theorem childrenRows_all_child (config : PipelineConfig) (mlk : List (String × RowDict))
    (mloc : Option String) (pr : PickingRow) (pq : String) (pi : Nat) :
    ∀ (es : List BomEntry) (c s : Nat),
      ∀ r ∈ childrenRows config mlk mloc pr pq pi c s es, r.is_child = true := by
  intro es
  induction es with
  | nil => intro c s r hr; simp [childrenRows] at hr
  | cons e t ih =>
    intro c s r hr
    rcases List.mem_cons.mp hr with h | h
    · subst h; rfl
    · exact ih (c + 1) (s + 1) r h

theorem childrenRows_countP_parent (config : PipelineConfig) (mlk : List (String × RowDict))
    (mloc : Option String) (pr : PickingRow) (pq : String) (pi : Nat)
    (es : List BomEntry) (c s : Nat) :
    (childrenRows config mlk mloc pr pq pi c s es).countP (fun r => !r.is_child) = 0 := by
  apply List.countP_eq_zero.mpr
  intro r hr
  rw [childrenRows_all_child config mlk mloc pr pq pi es c s r hr]
  decide

theorem childrenRows_map_productCode (config : PipelineConfig) (mlk : List (String × RowDict))
    (mloc : Option String) (pr : PickingRow) (pq : String) (pi : Nat) :
    ∀ (es : List BomEntry) (c s : Nat),
      (childrenRows config mlk mloc pr pq pi c s es).map (·.productCode)
        = es.map (·.productCode) := by
  intro es
  induction es with
  | nil => intro c s; rfl
  | cons e t ih =>
    intro c s
    simp only [childrenRows, List.map_cons, childRowOf_productCode, ih]

theorem childrenRows_map_sequence (config : PipelineConfig) (mlk : List (String × RowDict))
    (mloc : Option String) (pr : PickingRow) (pq : String) (pi : Nat) :
    ∀ (es : List BomEntry) (c s : Nat),
      (childrenRows config mlk mloc pr pq pi c s es).map (·.sequence)
        = List.range' s es.length := by
  intro es
  induction es with
  | nil => intro c s; rfl
  | cons e t ih =>
    intro c s
    simp only [childrenRows, List.map_cons, childRowOf_sequence, ih, List.length_cons,
      List.range'_succ]

theorem expandRows_cons (config : PipelineConfig) (jk : String)
    (mlk : List (String × RowDict)) (mloc : Option String) (lk : BomLookup)
    (p s : Nat) (d : RowDict) (rest : List RowDict) :
    expandRows config jk mlk mloc lk p s (d :: rest)
      = parentRowOf config jk mloc d p s
        :: (childrenRows config mlk mloc (parentRowOf config jk mloc d p s)
              (parentRowOf config jk mloc d p s).quantity p 1 (s + 1)
              ((dictGet lk (_normalize_code_value (parentRowOf config jk mloc d p s).productCode)).getD [])
            ++ expandRows config jk mlk mloc lk (p + 1)
                (s + 1 + ((dictGet lk (_normalize_code_value (parentRowOf config jk mloc d p s).productCode)).getD []).length)
                rest) := rfl

theorem expandRows_map_sequence (config : PipelineConfig) (jk : String)
    (mlk : List (String × RowDict)) (mloc : Option String) (lk : BomLookup) :
    ∀ (ds : List RowDict) (p s : Nat),
      (expandRows config jk mlk mloc lk p s ds).map (·.sequence)
        = List.range' s (expandRows config jk mlk mloc lk p s ds).length := by
  intro ds
  induction ds with
  | nil => intro p s; rfl
  | cons d rest ih =>
    intro p s
    rw [expandRows_cons]
    set parent := parentRowOf config jk mloc d p s with hparent
    set children :=
      (dictGet lk (_normalize_code_value parent.productCode)).getD [] with hchildren
    set kids := childrenRows config mlk mloc parent parent.quantity p 1 (s + 1) children
      with hkids
    set L2 := expandRows config jk mlk mloc lk (p + 1) (s + 1 + children.length) rest with hL2
    have hkl : kids.length = children.length := childrenRows_length ..
    rw [List.map_cons, List.map_append, parentRowOf_sequence]
    rw [hkids, childrenRows_map_sequence, ih]
    have happ :
        List.range' (s + 1) children.length ++ List.range' (s + 1 + children.length) L2.length
          = List.range' (s + 1) (L2.length + children.length) := by
      have := List.range'_append (s + 1) children.length L2.length 1
      simpa [Nat.one_mul, Nat.add_comm, Nat.add_assoc, Nat.add_left_comm] using this
    rw [happ]
    have hlen : (parent :: (kids ++ L2)).length = L2.length + children.length + 1 := by
      simp [List.length_cons, List.length_append, hkl]
      omega
    rw [hlen, List.range'_succ]

theorem expandRows_groups (config : PipelineConfig) (jk : String)
    (mlk : List (String × RowDict)) (mloc : Option String) (lk : BomLookup) :
    ∀ (ds : List RowDict) (p s : Nat),
      ∃ groups : List (List PickingRow),
        expandRows config jk mlk mloc lk p s ds = groups.flatten
        ∧ groups.length = ds.length
        ∧ ∀ g ∈ groups, ∃ parent kids, g = parent :: kids
            ∧ parent.is_child = false
            ∧ (∀ c ∈ kids, c.is_child = true)
            ∧ kids.map (·.productCode)
              = ((dictGet lk (_normalize_code_value parent.productCode)).getD []).map
                  (·.productCode) := by
  intro ds
  induction ds with
  | nil => intro p s; exact ⟨[], rfl, rfl, fun g hg => absurd hg (List.not_mem_nil g)⟩
  | cons d rest ih =>
    intro p s
    set parent := parentRowOf config jk mloc d p s with hparent
    set children :=
      (dictGet lk (_normalize_code_value parent.productCode)).getD [] with hchildren
    set kids := childrenRows config mlk mloc parent parent.quantity p 1 (s + 1) children
      with hkids
    obtain ⟨groups, hflat, hlen, hprops⟩ := ih (p + 1) (s + 1 + children.length)
    refine ⟨(parent :: kids) :: groups, ?_, ?_, ?_⟩
    · rw [expandRows_cons, List.flatten_cons, ← hflat]
      rfl
    · simp [List.length_cons, hlen]
    · intro g hg
      rcases List.mem_cons.mp hg with h | h
      · subst h
        refine ⟨parent, kids, rfl, rfl, ?_, ?_⟩
        · intro c hc
          exact childrenRows_all_child config mlk mloc parent parent.quantity p children 1 (s + 1) c hc
        · rw [hkids, childrenRows_map_productCode]
      · exact hprops g h

theorem childrenRows_mem (config : PipelineConfig) (mlk : List (String × RowDict))
    (mloc : Option String) (pr : PickingRow) (pq : String) (pi : Nat) :
    ∀ (es : List BomEntry) (c s : Nat) (r : PickingRow),
      r ∈ childrenRows config mlk mloc pr pq pi c s es →
      ∃ ci s2 e, e ∈ es ∧ r = childRowOf config mlk mloc pr pq pi ci s2 e := by
  intro es
  induction es with
  | nil => intro c s r hr; simp [childrenRows] at hr
  | cons e t ih =>
    intro c s r hr
    rcases List.mem_cons.mp hr with h | h
    · exact ⟨c, s, e, List.mem_cons_self e t, h⟩
    · obtain ⟨ci, s2, e', he', heq⟩ := ih (c + 1) (s + 1) r h
      exact ⟨ci, s2, e', List.mem_cons_of_mem e he', heq⟩

theorem expandRows_mem (config : PipelineConfig) (jk : String)
    (mlk : List (String × RowDict)) (mloc : Option String) (lk : BomLookup) :
    ∀ (ds : List RowDict) (p s : Nat) (r : PickingRow),
      r ∈ expandRows config jk mlk mloc lk p s ds →
      (∃ d ∈ ds, ∃ p' s', r = parentRowOf config jk mloc d p' s')
      ∨ (∃ d ∈ ds, ∃ p' s' ci s2 entry,
          entry ∈ (dictGet lk
            (_normalize_code_value (parentRowOf config jk mloc d p' s').productCode)).getD []
          ∧ r = childRowOf config mlk mloc (parentRowOf config jk mloc d p' s')
              (parentRowOf config jk mloc d p' s').quantity p' ci s2 entry) := by
  intro ds
  induction ds with
  | nil => intro p s r hr; simp [expandRows] at hr
  | cons d rest ih =>
    intro p s r hr
    rw [expandRows_cons] at hr
    rcases List.mem_cons.mp hr with h | h
    · exact Or.inl ⟨d, List.mem_cons_self d rest, p, s, h⟩
    · rcases List.mem_append.mp h with h2 | h2
      · obtain ⟨ci, s2, e, he, heq⟩ := childrenRows_mem config mlk mloc _ _ p _ 1 (s + 1) r h2
        exact Or.inr ⟨d, List.mem_cons_self d rest, p, s, ci, s2, e, he, heq⟩
      · rcases ih (p + 1) _ r h2 with ⟨d', hd', rest'⟩ | ⟨d', hd', rest'⟩
        · exact Or.inl ⟨d', List.mem_cons_of_mem d hd', rest'⟩
        · exact Or.inr ⟨d', List.mem_cons_of_mem d hd', rest'⟩

theorem length_filter_beq_le_one {α β : Type} [BEq β] [LawfulBEq β]
    (l : List α) (f : α → β) (hnd : (l.map f).Nodup) (b : β) :
    (l.filter (fun x => f x == b)).length ≤ 1 := by
  induction l with
  | nil => simp
  | cons a t ih =>
    rw [List.map_cons, List.nodup_cons] at hnd
    obtain ⟨hna, hnt⟩ := hnd
    rw [List.filter_cons]
    by_cases hab : (f a == b) = true
    · rw [if_pos hab]
      have hnil : t.filter (fun x => f x == b) = [] := by
        rw [List.filter_eq_nil_iff]
        intro x hx hxb
        apply hna
        rw [List.mem_map]
        refine ⟨x, hx, ?_⟩
        rw [eq_of_beq hxb, ← eq_of_beq hab]
      rw [hnil]
      simp
    · rw [if_neg hab]
      exact ih hnt

theorem flatMap_length_of_one {α β : Type} (l : List α) (f : α → List β)
    (h : ∀ a ∈ l, (f a).length = 1) : (l.flatMap f).length = l.length := by
  induction l with
  | nil => rfl
  | cons a t ih =>
    rw [List.flatMap_cons, List.length_append, List.length_cons,
      h a (List.mem_cons_self a t), ih (fun x hx => h x (List.mem_cons_of_mem a hx))]
    omega

theorem merge_left_length_of_nodup (ship mast : DF) (jk : String)
    (hnd : (mast.cells.map (fun r => dictGet (rowDict mast.cols r) jk)).Nodup) :
    (merge_left ship mast jk).length = ship.cells.length := by
  unfold merge_left
  apply flatMap_length_of_one
  intro srow _
  dsimp only
  set sval := dictGet (rowDict ship.cols srow) jk with hsval
  set found := mast.cells.filter
    (fun mrow => dictGet (rowDict mast.cols mrow) jk == sval) with hfound
  by_cases hemp : found.isEmpty = true
  · rw [if_pos hemp]
    rfl
  · rw [if_neg hemp, List.length_map]
    have hle : found.length ≤ 1 := by
      rw [hfound]
      exact length_filter_beq_le_one mast.cells _ hnd sval
    have hge : 1 ≤ found.length := by
      rcases hfd : found with _ | ⟨x, xs⟩
      · simp [hfd] at hemp
      · simp
    omega

theorem childrenRows_getElem_of_eq (config : PipelineConfig) (mlk : List (String × RowDict))
    (mloc : Option String) (pr : PickingRow) (pq : String) (pi : Nat)
    (es : List BomEntry) (c s : Nat) (K : List PickingRow)
    (hK : K = childrenRows config mlk mloc pr pq pi c s es)
    (i : Nat) (h : i < es.length) (h2 : i < K.length) :
    K[i] = childRowOf config mlk mloc pr pq pi (c + i) (s + i) es[i] := by
  subst hK
  exact childrenRows_getElem config mlk mloc pr pq pi es c s i h
    (by rw [childrenRows_length]; exact h)

theorem expandRows_positions (config : PipelineConfig) (jk : String)
    (mlk : List (String × RowDict)) (mloc : Option String) (lk : BomLookup) :
    ∀ (ds : List RowDict) (p s : Nat), 1 ≤ p →
    ∀ (L : List PickingRow), L = expandRows config jk mlk mloc lk p s ds →
    ∀ (i : Nat) (hi : i < L.length),
      (L[i].is_child = false →
        L[i].no = Nat.repr (p - 1 + (L.take (i + 1)).countP (fun r => !r.is_child)))
      ∧ (L[i].is_child = true →
        ∃ j, ∃ hj : j < i, ∃ hj2 : j < L.length,
          L[j].is_child = false
          ∧ (∀ l, j < l → ∀ hl : l < i, ∀ hl2 : l < L.length, L[l].is_child = true)
          ∧ L[i].parent_no = some L[j].no
          ∧ L[i].child_index = some (i - j)
          ∧ L[i].no = L[j].no ++ "-" ++ Nat.repr (i - j)) := by
  intro ds
  induction ds with
  | nil =>
    intro p s hp L hL i hi
    rw [hL] at hi
    simp [expandRows] at hi
  | cons d rest ih =>
    intro p s hp L hL i hi
    rw [expandRows_cons] at hL
    obtain ⟨parent, hparent⟩ : ∃ x, x = parentRowOf config jk mloc d p s := ⟨_, rfl⟩
    rw [← hparent] at hL
    obtain ⟨children, hchildren⟩ :
        ∃ x, x = (dictGet lk (_normalize_code_value parent.productCode)).getD [] := ⟨_, rfl⟩
    rw [← hchildren] at hL
    obtain ⟨kids, hkids⟩ :
        ∃ x, x = childrenRows config mlk mloc parent parent.quantity p 1 (s + 1) children :=
      ⟨_, rfl⟩
    rw [← hkids] at hL
    obtain ⟨L2, hL2⟩ :
        ∃ x, x = expandRows config jk mlk mloc lk (p + 1) (s + 1 + children.length) rest :=
      ⟨_, rfl⟩
    rw [← hL2] at hL
    have hkl : kids.length = children.length := by rw [hkids, childrenRows_length]
    have hpno : parent.no = Nat.repr p := by rw [hparent, parentRowOf_no]
    have hpch : parent.is_child = false := by rw [hparent, parentRowOf_is_child]
    have hcnt : kids.countP (fun r => !r.is_child) = 0 := by
      rw [hkids, childrenRows_countP_parent]
    subst hL
    have hlen : (parent :: (kids ++ L2)).length = kids.length + L2.length + 1 := by
      simp [List.length_cons, List.length_append]
    cases i with
    | zero =>
      constructor
      · intro _
        rw [List.getElem_cons_zero, hpno, List.take_succ_cons, List.take_zero,
          List.countP_cons, List.countP_nil, hpch]
        norm_num
        congr 1
        omega
      · intro hc
        rw [List.getElem_cons_zero, hpch] at hc
        exact Bool.noConfusion hc
    | succ m =>
      have hi' : m < kids.length + L2.length := by
        rw [hlen] at hi
        omega
      by_cases hm : m < kids.length
      · -- a child row of the group headed by `parent`
        have hmc : m < children.length := hkl ▸ hm
        have him : (parent :: (kids ++ L2))[m + 1]
            = childRowOf config mlk mloc parent parent.quantity p (1 + m) (s + 1 + m)
                children[m] := by
          rw [List.getElem_cons_succ, List.getElem_append_left hm]
          exact childrenRows_getElem_of_eq config mlk mloc parent parent.quantity p children
            1 (s + 1) kids hkids m hmc hm
        constructor
        · intro hc
          rw [him, childRowOf_is_child] at hc
          exact Bool.noConfusion hc
        · intro _
          refine ⟨0, Nat.succ_pos m, by omega, ?_, ?_, ?_, ?_, ?_⟩
          · rw [List.getElem_cons_zero]
            exact hpch
          · intro l hl0 hl hl2
            rcases l with _ | l'
            · omega
            · have hl' : l' < kids.length := by omega
              have hl'c : l' < children.length := hkl ▸ hl'
              have hgl : (parent :: (kids ++ L2))[l' + 1]
                  = childRowOf config mlk mloc parent parent.quantity p (1 + l')
                      (s + 1 + l') children[l'] := by
                rw [List.getElem_cons_succ, List.getElem_append_left hl']
                exact childrenRows_getElem_of_eq config mlk mloc parent parent.quantity p
                  children 1 (s + 1) kids hkids l' hl'c hl'
              rw [hgl, childRowOf_is_child]
          · rw [him, childRowOf_parent_no, List.getElem_cons_zero]
          · have harith : 1 + m = m + 1 - 0 := by omega
            rw [him, childRowOf_child_index, harith]
          · have harith : 1 + m = m + 1 - 0 := by omega
            rw [him, childRowOf_no, List.getElem_cons_zero, hpno, harith]
      · -- a row produced by the remaining merged rows
        have hkm : kids.length ≤ m := Nat.le_of_not_lt hm
        have hi2 : m - kids.length < L2.length := by omega
        have hLm : (parent :: (kids ++ L2))[m + 1] = L2[m - kids.length] := by
          rw [List.getElem_cons_succ, List.getElem_append_right hkm]
        obtain ⟨ihp, ihc⟩ :=
          ih (p + 1) (s + 1 + children.length) (by omega) L2 hL2 (m - kids.length) hi2
        constructor
        · intro hc
          rw [hLm] at hc
          rw [hLm, ihp hc]
          have htake : (parent :: (kids ++ L2)).take (m + 1 + 1)
              = parent :: (kids ++ L2.take (m - kids.length + 1)) := by
            rw [List.take_succ_cons]
            congr 1
            rw [show m + 1 = kids.length + (m - kids.length + 1) from by omega]
            exact List.take_append _
          rw [htake, List.countP_cons, List.countP_append, hpch, hcnt]
          norm_num
          congr 1
          omega
        · intro hc
          rw [hLm] at hc
          obtain ⟨j', hj', hj2', hjp, hbet, hpn, hci, hno⟩ := ihc hc
          have hjlt : j' + kids.length + 1 < m + 1 := by omega
          have hjlt2 : j' + kids.length + 1 < (parent :: (kids ++ L2)).length := by
            rw [hlen]; omega
          have hLj : (parent :: (kids ++ L2))[j' + kids.length + 1] = L2[j'] := by
            rw [List.getElem_cons_succ,
              List.getElem_append_right (show kids.length ≤ j' + kids.length from by omega)]
            simp [Nat.add_sub_cancel]
          refine ⟨j' + kids.length + 1, hjlt, hjlt2, ?_, ?_, ?_, ?_, ?_⟩
          · rw [hLj]; exact hjp
          · intro l hl0 hl hl2
            rcases l with _ | l''
            · omega
            · have hkl'' : kids.length ≤ l'' := by omega
              have hbnd : l'' - kids.length < L2.length := by
                rw [hlen] at hl2
                omega
              have hgl : (parent :: (kids ++ L2))[l'' + 1] = L2[l'' - kids.length] := by
                rw [List.getElem_cons_succ, List.getElem_append_right hkl'']
              rw [hgl]
              exact hbet (l'' - kids.length) (by omega) (by omega) hbnd
          · rw [hLm, hLj]; exact hpn
          · have harith : m - kids.length - j' = m + 1 - (j' + kids.length + 1) := by omega
            rw [hLm, hci, harith]
          · have harith : m - kids.length - j' = m + 1 - (j' + kids.length + 1) := by omega
            rw [hLm, hLj, hno, harith]

/-- C2: in every `join_and_map` output, a parent row's `no` is the decimal
string of its 1-based position among parents; a child row has a unique most
recent preceding parent row, consecutive child predecessors back to it, a
`parent_no` equal to that parent's `no`, a `child_index` equal to its offset
from the parent (hence contiguous `1..k` over the parent's children in BOM
order), and `no` equal to `parent_no ++ "-" ++ child_index`. -/
theorem C2_numbering_invariants (ship mast : DF) (config : PipelineConfig)
    (bl : Option BomLookup) (L : List PickingRow)
    (hL : L = join_and_map ship mast config bl) (i : Nat) (hi : i < L.length) :
    (L[i].is_child = false →
      L[i].no = Nat.repr ((L.take (i + 1)).countP (fun r => !r.is_child)))
    ∧ (L[i].is_child = true →
      ∃ j, ∃ hj : j < i, ∃ hj2 : j < L.length,
        L[j].is_child = false
        ∧ (∀ l, j < l → ∀ hl : l < i, ∀ hl2 : l < L.length, L[l].is_child = true)
        ∧ L[i].parent_no = some L[j].no
        ∧ L[i].child_index = some (i - j)
        ∧ L[i].no = L[j].no ++ "-" ++ Nat.repr (i - j)) := by
  obtain ⟨h1, h2⟩ := expandRows_positions config (_clean_column config.join_key)
    (_build_master_lookup mast (_clean_column config.join_key))
    (master_location_column mast) (bl.getD [])
    (merge_left ship mast (_clean_column config.join_key)) 1 1 le_rfl L (hL.trans rfl) i hi
  refine ⟨fun hc => ?_, h2⟩
  rw [h1 hc, Nat.sub_self, Nat.zero_add]

/-- Witness for C2: on a one-row shipment with a two-entry BOM lookup, the
second output row is a child whose `parent_no` is the first row's `no` and
whose `child_index` is 1. -/
theorem C2_numbering_invariants_witness :
    (List.get (join_and_map shipOne mastOne cfgEmpty (some lkTwo)) ⟨1, by decide⟩).parent_no
      = some (List.get (join_and_map shipOne mastOne cfgEmpty (some lkTwo)) ⟨0, by decide⟩).no
    ∧ (List.get (join_and_map shipOne mastOne cfgEmpty (some lkTwo)) ⟨1, by decide⟩).child_index
      = some 1 := by
  obtain ⟨j, hj, hj2, hjp, hbet, hpn, hci, hno⟩ :=
    (C2_numbering_invariants shipOne mastOne cfgEmpty (some lkTwo)
      (join_and_map shipOne mastOne cfgEmpty (some lkTwo)) rfl 1 (by decide)).2 (by decide)
  have hj0 : j = 0 := by omega
  subst hj0
  constructor
  · simpa [List.get_eq_getElem] using hpn
  · simpa [List.get_eq_getElem] using hci

/-- C1 (amended): provided the master table's join-key values are pairwise
distinct, the output of `join_and_map` is, per shipment row in original
order, exactly one parent row immediately followed by its looked-up BOM
children in lookup (BOM-sorted) order; the sequence values are the dense
run `1..N` in emission order; a parent with no master match or no BOM
children still appears as the head of its (possibly child-free) group. -/
theorem C1_expansion_structure (ship mast : DF) (config : PipelineConfig)
    (bl : Option BomLookup)
    (huniq : (mast.cells.map (fun r =>
        dictGet (rowDict mast.cols r) (_clean_column config.join_key))).Nodup) :
    (join_and_map ship mast config bl).map (·.sequence)
      = List.range' 1 (join_and_map ship mast config bl).length
    ∧ ∃ groups : List (List PickingRow),
        join_and_map ship mast config bl = groups.flatten
        ∧ groups.length = ship.cells.length
        ∧ ∀ g ∈ groups, ∃ parent kids, g = parent :: kids
            ∧ parent.is_child = false
            ∧ (∀ c ∈ kids, c.is_child = true)
            ∧ kids.map (·.productCode)
              = ((dictGet (bl.getD [])
                    (_normalize_code_value parent.productCode)).getD []).map
                  (·.productCode) := by
  constructor
  · exact expandRows_map_sequence config (_clean_column config.join_key)
      (_build_master_lookup mast (_clean_column config.join_key))
      (master_location_column mast) (bl.getD [])
      (merge_left ship mast (_clean_column config.join_key)) 1 1
  · obtain ⟨groups, hflat, hlen, hprops⟩ := expandRows_groups config
      (_clean_column config.join_key)
      (_build_master_lookup mast (_clean_column config.join_key))
      (master_location_column mast) (bl.getD [])
      (merge_left ship mast (_clean_column config.join_key)) 1 1
    exact ⟨groups, hflat,
      by rw [hlen, merge_left_length_of_nodup ship mast _ huniq], hprops⟩

/-- Counterexample to C1 as stated: a master table whose join-key column
repeats the value `"k"` makes the left merge duplicate the single shipment
row, so `join_and_map` emits two parent rows for one shipment row (the
claim promises exactly one, hence — with no BOM — exactly one row). -/
theorem C1_counterexample :
    shipOne.cells.length = 1
    ∧ ((join_and_map shipOne mastDup cfgEmpty none).filter (fun r => !r.is_child)).length = 2
    ∧ (join_and_map shipOne mastDup cfgEmpty none).length = 2 := by
  refine ⟨rfl, by decide, by decide⟩

/-- Witness for C1: a one-row shipment against a duplicate-free master,
with a BOM lookup, yields the dense sequence `1..N`. -/
theorem C1_expansion_structure_witness :
    (join_and_map shipOne mastOne cfgEmpty (some lkTwo)).map (·.sequence)
      = List.range' 1 (join_and_map shipOne mastOne cfgEmpty (some lkTwo)).length :=
  (C1_expansion_structure shipOne mastOne cfgEmpty (some lkTwo) (by decide)).1

/-- Every parent row of `join_and_map` comes from a merged row, and its
fields are exactly the loop body's: resolver fields, displayed quantity,
join-key fallback for the product code, and the master-location-column
mechanism for the location. -/
theorem join_and_map_parent_provenance (ship mast : DF) (config : PipelineConfig)
    (bl : Option BomLookup) (r : PickingRow)
    (hr : r ∈ join_and_map ship mast config bl) (hp : r.is_child = false) :
    ∃ data ∈ merge_left ship mast (_clean_column config.join_key),
      r.shipDate = resolve_field config data "shipDate"
      ∧ r.clientCode = resolve_field config data "clientCode"
      ∧ r.notice = resolve_field config data "notice"
      ∧ r.itemType = resolve_field config data "itemType"
      ∧ r.productName = resolve_field config data "productName"
      ∧ r.orderNumber = resolve_field config data "orderNumber"
      ∧ r.quantity = _display_quantity (resolve_field config data "quantity")
      ∧ r.productCode = strOr (resolve_field config data "productCode")
          (normalize_value (dictGet data (_clean_column config.join_key)))
      ∧ r.location = (match master_location_column mast with
          | some col => strOr ((dictGet data col).getD "")
              ((dictGet data (col ++ "_mst")).getD "")
          | none => "") := by
  rcases expandRows_mem config (_clean_column config.join_key)
      (_build_master_lookup mast (_clean_column config.join_key))
      (master_location_column mast) (bl.getD [])
      (merge_left ship mast (_clean_column config.join_key)) 1 1 r hr with
    ⟨d, hd, p', s', heq⟩ | ⟨d, hd, p', s', ci, s2, entry, hent, heq⟩
  · subst heq
    exact ⟨d, hd, rfl, rfl, rfl, rfl, rfl, rfl, rfl, rfl, rfl⟩
  · rw [heq, childRowOf_is_child] at hp
    exact Bool.noConfusion hp

/-- C8 (amended): every parent row of `join_and_map` comes from a merged
row, with `shipDate`, `clientCode`, `notice`, `itemType`, `productName`,
`orderNumber` and the raw quantity resolved by the field resolver and the
quantity displayed; `productCode` falls back to the join-key cell when the
resolver yields empty; `location` is not resolved through the field
mapping but read from the master table's eleventh column (empty when the
master has no such column). -/
theorem C8_parent_field_resolution (ship mast : DF) (config : PipelineConfig)
    (bl : Option BomLookup) (r : PickingRow)
    (hr : r ∈ join_and_map ship mast config bl) (hp : r.is_child = false) :
    ∃ data ∈ merge_left ship mast (_clean_column config.join_key),
      r.shipDate = resolve_field config data "shipDate"
      ∧ r.clientCode = resolve_field config data "clientCode"
      ∧ r.notice = resolve_field config data "notice"
      ∧ r.itemType = resolve_field config data "itemType"
      ∧ r.productName = resolve_field config data "productName"
      ∧ r.orderNumber = resolve_field config data "orderNumber"
      ∧ r.quantity = _display_quantity (resolve_field config data "quantity")
      ∧ r.productCode = strOr (resolve_field config data "productCode")
          (normalize_value (dictGet data (_clean_column config.join_key)))
      ∧ r.location = (match master_location_column mast with
          | some col => strOr ((dictGet data col).getD "")
              ((dictGet data (col ++ "_mst")).getD "")
          | none => "") :=
  join_and_map_parent_provenance ship mast config bl r hr hp

/-- Counterexample to C8 as stated: with the field mapping sending
`location` to column `LOC`, a shipment row carrying `LOC = "A1"`, and a
master table with fewer than eleven columns, the resolver yields `"A1"` on
the joined row but the emitted parent row's `location` is `""`. -/
theorem C8_counterexample :
    (join_and_map shipLoc mastEmpty cfgLoc none).map (·.location) = [""]
    ∧ merge_left shipLoc mastEmpty "K" = [[("K", "k1"), ("LOC", "A1")]]
    ∧ resolve_field cfgLoc [("K", "k1"), ("LOC", "A1")] "location" = "A1"
    ∧ ("A1" : String) ≠ "" := by
  refine ⟨by decide, by decide, by decide, by decide⟩

/-- Witness for C8: the parent row of a concrete run, with its merged-row
provenance and field equations. -/
theorem C8_parent_field_resolution_witness :
    ∃ data ∈ merge_left shipOne mastOne (_clean_column cfgEmpty.join_key),
      (List.get (join_and_map shipOne mastOne cfgEmpty none) ⟨0, by decide⟩).shipDate
        = resolve_field cfgEmpty data "shipDate"
      ∧ (List.get (join_and_map shipOne mastOne cfgEmpty none) ⟨0, by decide⟩).clientCode
        = resolve_field cfgEmpty data "clientCode"
      ∧ (List.get (join_and_map shipOne mastOne cfgEmpty none) ⟨0, by decide⟩).notice
        = resolve_field cfgEmpty data "notice"
      ∧ (List.get (join_and_map shipOne mastOne cfgEmpty none) ⟨0, by decide⟩).itemType
        = resolve_field cfgEmpty data "itemType"
      ∧ (List.get (join_and_map shipOne mastOne cfgEmpty none) ⟨0, by decide⟩).productName
        = resolve_field cfgEmpty data "productName"
      ∧ (List.get (join_and_map shipOne mastOne cfgEmpty none) ⟨0, by decide⟩).orderNumber
        = resolve_field cfgEmpty data "orderNumber"
      ∧ (List.get (join_and_map shipOne mastOne cfgEmpty none) ⟨0, by decide⟩).quantity
        = _display_quantity (resolve_field cfgEmpty data "quantity")
      ∧ (List.get (join_and_map shipOne mastOne cfgEmpty none) ⟨0, by decide⟩).productCode
        = strOr (resolve_field cfgEmpty data "productCode")
            (normalize_value (dictGet data (_clean_column cfgEmpty.join_key)))
      ∧ (List.get (join_and_map shipOne mastOne cfgEmpty none) ⟨0, by decide⟩).location
        = (match master_location_column mastOne with
            | some col => strOr ((dictGet data col).getD "")
                ((dictGet data (col ++ "_mst")).getD "")
            | none => "") := by
  have h := C8_parent_field_resolution shipOne mastOne cfgEmpty none
    (List.get (join_and_map shipOne mastOne cfgEmpty none) ⟨0, by decide⟩)
    (by decide) (by decide)
  exact h

/-- C10: when the field resolver yields the empty string for `productCode`
on a merged row, the emitted parent row's `productCode` is the normalized
join-key cell of that row instead of the empty string. -/
theorem C10_product_code_fallback (ship mast : DF) (config : PipelineConfig)
    (bl : Option BomLookup) (r : PickingRow)
    (hr : r ∈ join_and_map ship mast config bl) (hp : r.is_child = false) :
    ∃ data ∈ merge_left ship mast (_clean_column config.join_key),
      (resolve_field config data "productCode" = "" →
        r.productCode = normalize_value (dictGet data (_clean_column config.join_key))) := by
  obtain ⟨data, hd, _, _, _, _, _, _, _, hpc, _⟩ :=
    join_and_map_parent_provenance ship mast config bl r hr hp
  refine ⟨data, hd, fun hres => ?_⟩
  rw [hpc, hres, strOr]
  simp

/-- C7 (amended): every child row of `join_and_map` stems from a BOM entry
of its parent; `productName`, `itemType`, `notice` are resolved by the
priority chains of the loop body — BOM value, then a second master lookup
of the child's own code, then (for `itemType` and `notice`) the parent's
value — but `productName` finally falls back to the child's product code,
not to the empty string; `location` comes only from the master-location
column of the second lookup (the BOM provides none). -/
theorem C7_child_field_resolution (ship mast : DF) (config : PipelineConfig)
    (bl : Option BomLookup) (r : PickingRow)
    (hr : r ∈ join_and_map ship mast config bl) (hc : r.is_child = true) :
    ∃ (entry : BomEntry) (parentR : PickingRow),
      entry ∈ (dictGet (bl.getD []) (_normalize_code_value parentR.productCode)).getD []
      ∧ r.parent_no = some parentR.no
      ∧ r.productCode = entry.productCode
      ∧ r.productName = strOr entry.productName
          (strOr (resolve_field config
              ((dictGet (_build_master_lookup mast (_clean_column config.join_key))
                (_normalize_code_value entry.productCode)).getD []) "productName")
            entry.productCode)
      ∧ r.itemType = strOr entry.itemType
          (strOr (resolve_field config
              ((dictGet (_build_master_lookup mast (_clean_column config.join_key))
                (_normalize_code_value entry.productCode)).getD []) "itemType")
            parentR.itemType)
      ∧ r.notice = strOr (resolve_field config
            ((dictGet (_build_master_lookup mast (_clean_column config.join_key))
              (_normalize_code_value entry.productCode)).getD []) "notice")
          parentR.notice
      ∧ r.location = (match master_location_column mast with
          | some col => strOr
              ((dictGet ((dictGet (_build_master_lookup mast (_clean_column config.join_key))
                  (_normalize_code_value entry.productCode)).getD []) col).getD "")
              ((dictGet ((dictGet (_build_master_lookup mast (_clean_column config.join_key))
                  (_normalize_code_value entry.productCode)).getD []) (col ++ "_mst")).getD "")
          | none => "") := by
  rcases expandRows_mem config (_clean_column config.join_key)
      (_build_master_lookup mast (_clean_column config.join_key))
      (master_location_column mast) (bl.getD [])
      (merge_left ship mast (_clean_column config.join_key)) 1 1 r hr with
    ⟨d, hd, p', s', heq⟩ | ⟨d, hd, p', s', ci, s2, entry, hent, heq⟩
  · rw [heq, parentRowOf_is_child] at hc
    exact Bool.noConfusion hc
  · subst heq
    exact ⟨entry, parentRowOf config (_clean_column config.join_key)
      (master_location_column mast) d p' s', hent, rfl, rfl, rfl, rfl, rfl, rfl⟩

/-- Counterexample to C7 as stated: a BOM entry with an empty product name
whose code has no master record yields a child `productName` equal to the
child's code `"C9"`, where the claim's chain (BOM value, then master
lookup, then empty) requires the empty string. -/
theorem C7_counterexample :
    (join_and_map shipP1 mastEmpty cfgEmpty (some lkNoName)).map
        (fun r => (r.is_child, r.productCode, r.productName))
      = [(false, "P1", ""), (true, "C9", "C9")]
    ∧ ("C9" : String) ≠ "" := by
  refine ⟨by decide, by decide⟩

/-- Witness for C7: the child row of a concrete run, with its BOM-entry
provenance and field equations. -/
theorem C7_child_field_resolution_witness :
    ∃ (entry : BomEntry) (parentR : PickingRow),
      entry ∈ (dictGet ((some lkTwo).getD [])
          (_normalize_code_value parentR.productCode)).getD []
      ∧ (List.get (join_and_map shipOne mastOne cfgEmpty (some lkTwo))
          ⟨1, by decide⟩).parent_no = some parentR.no
      ∧ (List.get (join_and_map shipOne mastOne cfgEmpty (some lkTwo))
          ⟨1, by decide⟩).productCode = entry.productCode
      ∧ (List.get (join_and_map shipOne mastOne cfgEmpty (some lkTwo))
          ⟨1, by decide⟩).productName = strOr entry.productName
          (strOr (resolve_field cfgEmpty
              ((dictGet (_build_master_lookup mastOne (_clean_column cfgEmpty.join_key))
                (_normalize_code_value entry.productCode)).getD []) "productName")
            entry.productCode)
      ∧ (List.get (join_and_map shipOne mastOne cfgEmpty (some lkTwo))
          ⟨1, by decide⟩).itemType = strOr entry.itemType
          (strOr (resolve_field cfgEmpty
              ((dictGet (_build_master_lookup mastOne (_clean_column cfgEmpty.join_key))
                (_normalize_code_value entry.productCode)).getD []) "itemType")
            parentR.itemType)
      ∧ (List.get (join_and_map shipOne mastOne cfgEmpty (some lkTwo))
          ⟨1, by decide⟩).notice = strOr (resolve_field cfgEmpty
            ((dictGet (_build_master_lookup mastOne (_clean_column cfgEmpty.join_key))
              (_normalize_code_value entry.productCode)).getD []) "notice")
          parentR.notice
      ∧ (List.get (join_and_map shipOne mastOne cfgEmpty (some lkTwo))
          ⟨1, by decide⟩).location = (match master_location_column mastOne with
          | some col => strOr
              ((dictGet ((dictGet (_build_master_lookup mastOne (_clean_column cfgEmpty.join_key))
                  (_normalize_code_value entry.productCode)).getD []) col).getD "")
              ((dictGet ((dictGet (_build_master_lookup mastOne (_clean_column cfgEmpty.join_key))
                  (_normalize_code_value entry.productCode)).getD []) (col ++ "_mst")).getD "")
          | none => "") :=
  C7_child_field_resolution shipOne mastOne cfgEmpty (some lkTwo)
    (List.get (join_and_map shipOne mastOne cfgEmpty (some lkTwo)) ⟨1, by decide⟩)
    (by decide) (by decide)

/-- Witness for C10: on a run with an empty field mapping the resolver
yields `""`, and the parent's product code is the join-key cell `"k"`. -/
theorem C10_product_code_fallback_witness :
    ∃ data ∈ merge_left shipOne mastOne (_clean_column cfgEmpty.join_key),
      (resolve_field cfgEmpty data "productCode" = "" →
        (List.get (join_and_map shipOne mastOne cfgEmpty none) ⟨0, by decide⟩).productCode
          = normalize_value (dictGet data (_clean_column cfgEmpty.join_key))) :=
  C10_product_code_fallback shipOne mastOne cfgEmpty none
    (List.get (join_and_map shipOne mastOne cfgEmpty none) ⟨0, by decide⟩)
    (by decide) (by decide)
